import Mathlib

/-!
A verification development for the row-to-record deserialization engine of
the serde_postgres repository (src/de.rs).

The embedding models:
- a database row as an ordered list of named, nullable, dynamically typed
  columns (the external row collaborator, including its typed-get with the
  WasNull conversion failure observed in the repository's own unit tests);
- the cursor type (struct Deserializer: a row plus a zero-based index);
- the serde Deserializer dispatch (one branch per deserialize_* method,
  keyed by the statically requested kind);
- the MapAccess driver (next_key_seed / next_value_seed, including the
  unconditional index advancement and the InvalidType error enrichment,
  where the unwrap on the column lookup is modelled by an Option: a none
  result stands for the panic);
- the serde-derive struct visitor that drives the map protocol (key lookup
  against the declared field list, the duplicate and missing field errors,
  the ignored-any path for unknown keys), with explicit fuel, together with
  a fuel-free list-level description proven equivalent.
-/

set_option autoImplicit false

namespace SerdePostgres

/-- A dynamically typed SQL value stored in a non-NULL column.  Floating
point payloads are kept as opaque bit patterns: the engine never computes
with them, it only moves them. -/
inductive SqlValue where
  | vBool (b : Bool)
  | vI8 (n : Int)
  | vI16 (n : Int)
  | vI32 (n : Int)
  | vI64 (n : Int)
  | vU32 (n : Nat)
  | vF32 (bits : Nat)
  | vF64 (bits : Nat)
  | vString (s : String)
  | vBytes (bs : List Nat)
  deriving DecidableEq, Repr

/-- The static Rust types that get_value! requests from Row::try_get. -/
inductive PrimType where
  | bool
  | i8
  | i16
  | i32
  | i64
  | u32
  | f32
  | f64
  | string
  | byteBuf
  deriving DecidableEq, Repr

/-- Exact static type match: tokio_postgres FromSql performs no cross-type
coercion, so a stored value converts only to its own type. -/
def SqlValue.hasType : SqlValue → PrimType → Bool
  | .vBool _, .bool => true
  | .vI8 _, .i8 => true
  | .vI16 _, .i16 => true
  | .vI32 _, .i32 => true
  | .vI64 _, .i64 => true
  | .vU32 _, .u32 => true
  | .vF32 _, .f32 => true
  | .vF64 _, .f64 => true
  | .vString _, .string => true
  | .vBytes _, .byteBuf => true
  | _, _ => false

/-- One named, nullable column of a row; value none is SQL NULL. -/
structure Column where
  name : String
  value : Option SqlValue
  deriving DecidableEq, Repr

instance : Inhabited Column := ⟨⟨"", none⟩⟩

/-- A row: the ordered column list of one query result record. -/
abbrev Row := List Column

/-- The external typed-get on one column, as the Debug-rendered error
strings observed by the repository's unit test for the NULL case
(wants_candy Error(Conversion(WasNull))): NULL into a non-optional type is
a WasNull conversion failure, a stored value of another type is a
conversion failure, both distinct successes. -/
def Column.tryGetAs (c : Column) (t : PrimType) : Except String SqlValue :=
  match c.value with
  | none => .error "Error(Conversion(WasNull))"
  | some v => if v.hasType t then .ok v else .error "Error(Conversion(WrongType))"

/-- Row::try_get::<T>(index): the typed-get of the external row collaborator. -/
def Row.tryGet (row : Row) (i : Nat) (t : PrimType) : Except String SqlValue :=
  match row[i]? with
  | none => .error "Error(InvalidColumn)"
  | some c => c.tryGetAs t

/-- Modelled from the spec: the repository's Error type lives in error.rs,
which is not among the provided sources; section 7 of the design document
and the uses in de.rs fix its four kinds: UnsupportedType, InvalidType
with a message, UnknownField, and Message for framework-propagated text
(missing field, duplicate field). -/
inductive Error where
  | UnsupportedType
  | InvalidType (msg : String)
  | UnknownField
  | Message (msg : String)
  deriving DecidableEq, Repr

/-- The statically requested deserialization kind: one constructor per
deserialize_* entry point of the serde Deserializer impl in de.rs that the
claims mention. -/
inductive DeKind where
  | any
  | u8
  | u16
  | u64
  | char
  | str
  | bytes
  | unit
  | identifier
  | option
  | ignoredAny
  | bool
  | i8
  | i16
  | i32
  | i64
  | u32
  | f32
  | f64
  | string
  | byteBuf
  | seq
  | enumK
  | unitStruct
  | newtypeStruct
  | tuple
  | tupleStruct
  deriving DecidableEq, Repr

/-- The value a visitor produces for one field: a primitive passed through
visit_bool/..., the opaque unit of visit_unit (ignored-any), or the byte
sequence reassembled through SeqDeserializer by deserialize_seq. -/
inductive DeValue where
  | prim (v : SqlValue)
  | unitVal
  | seqVal (bs : List Nat)
  deriving DecidableEq, Repr

/-- struct Deserializer: the wrapped row and the zero-based column cursor. -/
structure Deserializer where
  input : Row
  index : Nat
  deriving DecidableEq, Repr

/-- Deserializer::from_row: index starts at 0. -/
def Deserializer.from_row (input : Row) : Deserializer :=
  { index := 0, input := input }

/-- The get_value! macro: try_get at the current index with the exact
requested static type, wrapping a failure into InvalidType with the
Debug-rendered message. -/
def get_value (d : Deserializer) (t : PrimType) : Except Error DeValue :=
  match Row.tryGet d.input d.index t with
  | .ok v => .ok (.prim v)
  | .error e => .error (.InvalidType e)

/-- The serde Deserializer dispatch of de.rs, one branch per method.  The
returned state is the deserializer after the call: no branch writes the
index, mirroring the source methods, which never touch self.index. -/
def deserialize (d : Deserializer) (k : DeKind) : Except Error DeValue × Deserializer :=
  match k with
  | .any => (.error .UnsupportedType, d)
  | .u8 => (.error .UnsupportedType, d)
  | .u16 => (.error .UnsupportedType, d)
  | .u64 => (.error .UnsupportedType, d)
  | .char => (.error .UnsupportedType, d)
  | .str => (.error .UnsupportedType, d)
  | .bytes => (.error .UnsupportedType, d)
  | .unit => (.error .UnsupportedType, d)
  | .identifier => (.error .UnsupportedType, d)
  | .option => (.error .UnsupportedType, d)
  | .ignoredAny => (.ok .unitVal, d)
  | .bool => (get_value d .bool, d)
  | .i8 => (get_value d .i8, d)
  | .i16 => (get_value d .i16, d)
  | .i32 => (get_value d .i32, d)
  | .i64 => (get_value d .i64, d)
  | .u32 => (get_value d .u32, d)
  | .f32 => (get_value d .f32, d)
  | .f64 => (get_value d .f64, d)
  | .string => (get_value d .string, d)
  | .byteBuf => (get_value d .byteBuf, d)
  | .seq =>
    (match Row.tryGet d.input d.index .byteBuf with
     | .error e => .error (.InvalidType e)
     | .ok (.vBytes bs) => .ok (.seqVal bs)
     | .ok v => .ok (.prim v), d)
  | .enumK => (.error .UnsupportedType, d)
  | .unitStruct => (.error .UnsupportedType, d)
  | .newtypeStruct => (.error .UnsupportedType, d)
  | .tuple => (.error .UnsupportedType, d)
  | .tupleStruct => (.error .UnsupportedType, d)

/-- next_key_seed of the MapAccess impl: end of map once the index reaches
the column count, otherwise the name of the column at the index as the
string key, with the defensive UnknownField branch on a failed lookup. -/
def next_key (d : Deserializer) : Except Error (Option String) :=
  if d.input.length ≤ d.index then
    .ok none
  else
    match d.input[d.index]? with
    | none => .error .UnknownField
    | some c => .ok (some c.name)

/-- next_value_seed of the MapAccess impl: run the dispatch for the
requested kind, advance the index by one unconditionally, and on an
InvalidType failure rewrite the message to the name of the column at
index - 1 followed by a space and the underlying message.  The source
unwraps that column lookup; a none result models the panic. -/
def next_value (d : Deserializer) (k : DeKind) : Option (Except Error DeValue × Deserializer) :=
  let r := deserialize d k
  let d1 : Deserializer := { r.2 with index := r.2.index + 1 }
  match r.1 with
  | .error (.InvalidType err) =>
    match d1.input[d1.index - 1]? with
    | none => none
    | some c => some (.error (.InvalidType (c.name ++ " " ++ err)), d1)
  | result => some (result, d1)

/-- One declared field of the target record: its name and the
deserialization kind its static type requests from the dispatch. -/
structure Field where
  name : String
  kind : DeKind
  deriving DecidableEq, Repr

/-- The kind requested for a key, when the key names a declared field. -/
def fieldKind (fields : List Field) (n : String) : Option DeKind :=
  (fields.find? (fun f => f.name == n)).map Field.kind

/-- A decoded record: the field assignment produced by one pass. -/
abbrev RecordVal := List (String × DeValue)

/-- The tail of the derived visitor: after map exhaustion, fail on the
first declared field (in declaration order) that never received a value,
otherwise build the record from the collected assignments in declaration
order. -/
def finishStruct (fields : List Field) (acc : RecordVal) : Except Error RecordVal :=
  match fields.find? (fun f => (acc.lookup f.name).isNone) with
  | some f => .error (.Message ("missing field `" ++ f.name ++ "`"))
  | none => .ok (fields.map (fun f => (f.name, (acc.lookup f.name).getD .unitVal)))

/-- The derived visit_map loop driving the MapAccess protocol: pull a key,
match it against the declared fields (rejecting a duplicate before the
value step, routing an unknown key through the ignored-any kind), pull the
value, and recurse.  Fuel bounds the iteration count; a none result stands
for fuel exhaustion or a panic inside next_value. -/
def visitMapLoop (fields : List Field) :
    Nat → Deserializer → RecordVal → Option (Except Error RecordVal × Deserializer)
  | 0, d, acc =>
    match next_key d with
    | .error e => some (.error e, d)
    | .ok none => some (finishStruct fields acc, d)
    | .ok (some _) => none
  | fuel + 1, d, acc =>
    match next_key d with
    | .error e => some (.error e, d)
    | .ok none => some (finishStruct fields acc, d)
    | .ok (some key) =>
      match fieldKind fields key with
      | none =>
        match next_value d .ignoredAny with
        | none => none
        | some (.error e, d1) => some (.error e, d1)
        | some (.ok _, d1) => visitMapLoop fields fuel d1 acc
      | some k =>
        if (acc.lookup key).isSome then
          some (.error (.Message ("duplicate field `" ++ key ++ "`")), d)
        else
          match next_value d k with
          | none => none
          | some (.error e, d1) => some (.error e, d1)
          | some (.ok v, d1) => visitMapLoop fields fuel d1 ((key, v) :: acc)

/-- from_row: build the cursor at index 0 and run the derived struct
visitor over the map protocol.  The row length is enough fuel: each
iteration advances the index by one and the key step stops at the column
count. -/
def from_row (fields : List Field) (input : Row) : Option (Except Error RecordVal) :=
  let deserializer := Deserializer.from_row input
  (visitMapLoop fields deserializer.input.length deserializer []).map Prod.fst

/-- from_rows: deserialize each row in order and collect, stopping at the
first failure (the Rust iterator collect into Result of Vec). -/
def from_rows (fields : List Field) : List Row → Option (Except Error (List RecordVal))
  | [] => some (.ok [])
  | row :: rest =>
    match from_row fields row with
    | none => none
    | some (.error e) => some (.error e)
    | some (.ok v) =>
      match from_rows fields rest with
      | none => none
      | some (.error e) => some (.error e)
      | some (.ok vs) => some (.ok (v :: vs))

/-- The dispatch outcome as a function of the single column it can read:
the dispatch at a cursor whose current column is c. -/
def dispatchVal (c : Column) (k : DeKind) : Except Error DeValue :=
  (deserialize { input := [c], index := 0 } k).1

/-- The outcome of one next_value call whose current column is c: the
dispatch outcome with the InvalidType message enriched by the column
name. -/
def valueStep (c : Column) (k : DeKind) : Except Error DeValue :=
  match dispatchVal c k with
  | .error (.InvalidType err) => .error (.InvalidType (c.name ++ " " ++ err))
  | r => r

/-- List-level description of one pass: process the remaining columns in
order against the declared fields.  Proven equivalent to the fueled
visitMapLoop below. -/
def processCols (fields : List Field) : List Column → RecordVal → Except Error RecordVal
  | [], acc => finishStruct fields acc
  | c :: rest, acc =>
    match fieldKind fields c.name with
    | none =>
      match valueStep c .ignoredAny with
      | .error e => .error e
      | .ok _ => processCols fields rest acc
    | some k =>
      if (acc.lookup c.name).isSome then
        .error (.Message ("duplicate field `" ++ c.name ++ "`"))
      else
        match valueStep c k with
        | .error e => .error e
        | .ok v => processCols fields rest ((c.name, v) :: acc)

/-- The assignment one column contributes: some value when its name is a
declared field and its value step succeeds, none otherwise. -/
def colResult (fields : List Field) (c : Column) : Option DeValue :=
  match fieldKind fields c.name with
  | some k => (valueStep c k).toOption
  | none => none

/-- The names of the columns that match a declared field. -/
def matchedNames (fields : List Field) (cols : List Column) : List String :=
  (cols.filter (fun c => (fieldKind fields c.name).isSome)).map Column.name

/-- The dispatch kinds the source rejects with UnsupportedType: the
unsupported_type! macro list plus the dedicated enum, unit-struct,
newtype-struct, tuple and tuple-struct methods. -/
def unsupportedKinds : List DeKind :=
  [.any, .u8, .u16, .u64, .char, .str, .bytes, .unit, .identifier, .option,
   .enumK, .unitStruct, .newtypeStruct, .tuple, .tupleStruct]

/-- The non-optional primitive kinds of the claims: bool, the signed
integer widths, u32, both float widths, String and the byte buffer. -/
def primKinds : List DeKind :=
  [.bool, .i8, .i16, .i32, .i64, .u32, .f32, .f64, .string, .byteBuf]

/-! Helper lemmas: the dispatch never moves the cursor, reads only the
current column, and the fueled visitor loop agrees with the list-level
description processCols. -/

theorem deserialize_snd (d : Deserializer) (k : DeKind) : (deserialize d k).2 = d := by
  cases k <;> rfl

theorem deserialize_fst_of_get (d : Deserializer) (k : DeKind) (c : Column)
    (h : d.input[d.index]? = some c) : (deserialize d k).1 = dispatchVal c k := by
  cases k <;> simp [deserialize, dispatchVal, get_value, Row.tryGet, h]

theorem valueStep_ignoredAny (c : Column) : valueStep c .ignoredAny = .ok .unitVal := rfl

theorem next_value_eq (d : Deserializer) (k : DeKind) (c : Column)
    (h : d.input[d.index]? = some c) :
    next_value d k = some (valueStep c k, { d with index := d.index + 1 }) := by
  have h2 := deserialize_snd d k
  have h1 := deserialize_fst_of_get d k c h
  simp only [next_value, h2, h1]
  cases hv : dispatchVal c k with
  | ok v => simp [valueStep, hv]
  | error e =>
    cases e with
    | InvalidType err =>
      simp only [valueStep, hv, Nat.add_sub_cancel, h]
    | UnsupportedType => simp [valueStep, hv]
    | UnknownField => simp [valueStep, hv]
    | Message m => simp [valueStep, hv]

theorem getElem?_append_cons (pre : List Column) (c : Column) (rest : List Column) :
    (pre ++ c :: rest)[pre.length]? = some c := by
  induction pre with
  | nil => simp
  | cons a pre ih => simpa using ih

theorem visitMapLoop_sim (fields : List Field) :
    ∀ (rest pre : List Column) (acc : RecordVal) (fuel : Nat),
      rest.length ≤ fuel →
      (visitMapLoop fields fuel { input := pre ++ rest, index := pre.length } acc).map Prod.fst
        = some (processCols fields rest acc) := by
  intro rest
  induction rest with
  | nil =>
    intro pre acc fuel _
    have hk : next_key { input := pre, index := pre.length } = .ok none := by
      simp [next_key]
    cases fuel <;> simp [visitMapLoop, hk, processCols]
  | cons c rest ih =>
    intro pre acc fuel hfuel
    have hget : ((pre ++ c :: rest) : Row)[pre.length]? = some c :=
      getElem?_append_cons pre c rest
    have hlen : ¬ ((pre ++ c :: rest).length ≤ pre.length) := by
      simp only [List.length_append, List.length_cons]
      omega
    have hk : next_key { input := pre ++ c :: rest, index := pre.length }
        = .ok (some c.name) := by
      simp [next_key, hlen, hget]
    cases fuel with
    | zero => exact absurd hfuel (by simp)
    | succ f =>
      have hfuel' : rest.length ≤ f := by
        simpa using hfuel
      have hnv : ∀ k, next_value { input := pre ++ c :: rest, index := pre.length } k
          = some (valueStep c k, { input := pre ++ c :: rest, index := pre.length + 1 }) := by
        intro k
        exact next_value_eq { input := pre ++ c :: rest, index := pre.length } k c hget
      have hstate : ({ input := pre ++ c :: rest, index := pre.length + 1 } : Deserializer)
          = { input := (pre ++ [c]) ++ rest, index := (pre ++ [c]).length } := by
        simp
      cases hfk : fieldKind fields c.name with
      | none =>
        simp only [visitMapLoop, hk, hfk, hnv DeKind.ignoredAny, valueStep_ignoredAny,
          processCols]
        rw [hstate]
        exact ih (pre ++ [c]) acc f hfuel'
      | some k =>
        by_cases hdup : (acc.lookup c.name).isSome
        · simp [visitMapLoop, hk, hfk, hdup, processCols]
        · simp only [visitMapLoop, hk, hfk, hdup, if_neg, Bool.false_eq_true,
            not_false_eq_true, processCols, hnv k]
          cases hv : valueStep c k with
          | error e => simp [hv]
          | ok v =>
            simp only [hv, Option.map]
            rw [hstate]
            exact ih (pre ++ [c]) ((c.name, v) :: acc) f hfuel'

theorem from_row_eq (fields : List Field) (input : Row) :
    from_row fields input = some (processCols fields input []) := by
  have h := visitMapLoop_sim fields input [] [] input.length (Nat.le_refl _)
  simpa [from_row, Deserializer.from_row] using h

/-! Characterization of the list-level pass: what one processed column
contributes to the accumulator, and how the final record depends only on
the name-to-column assignment. -/

theorem lookup_cons (n k : String) (v : DeValue) (acc : RecordVal) :
    List.lookup n ((k, v) :: acc) = if n == k then some v else List.lookup n acc := by
  by_cases h : n == k <;> simp [List.lookup, h]

theorem matchedNames_cons_matched (fields : List Field) (c : Column) (cols : List Column)
    (h : (fieldKind fields c.name).isSome) :
    matchedNames fields (c :: cols) = c.name :: matchedNames fields cols := by
  simp [matchedNames, List.filter_cons, h]

theorem matchedNames_cons_unmatched (fields : List Field) (c : Column) (cols : List Column)
    (h : fieldKind fields c.name = none) :
    matchedNames fields (c :: cols) = matchedNames fields cols := by
  simp [matchedNames, List.filter_cons, h]

theorem mem_matchedNames (fields : List Field) (cols : List Column) (c : Column)
    (hc : c ∈ cols) (hm : (fieldKind fields c.name).isSome) :
    c.name ∈ matchedNames fields cols := by
  simp only [matchedNames, List.mem_map]
  exact ⟨c, List.mem_filter.mpr ⟨hc, by simpa using hm⟩, rfl⟩

theorem colResult_none (fields : List Field) (c : Column)
    (h : fieldKind fields c.name = none) : colResult fields c = none := by
  simp [colResult, h]

theorem processCols_append (fields : List Field) :
    ∀ (pre rest : List Column) (acc : RecordVal),
      (∀ c ∈ pre, ∀ k, fieldKind fields c.name = some k → ∃ v, valueStep c k = .ok v) →
      (matchedNames fields pre).Nodup →
      (∀ n ∈ matchedNames fields pre, acc.lookup n = none) →
      ∃ acc', processCols fields (pre ++ rest) acc = processCols fields rest acc' ∧
        ∀ n, acc'.lookup n
          = ((pre.find? (fun c => c.name == n)).bind (colResult fields)).or (acc.lookup n) := by
  intro pre
  induction pre with
  | nil =>
    intro rest acc _ _ _
    exact ⟨acc, rfl, fun n => by simp⟩
  | cons c pre ih =>
    intro rest acc hok hnd hdisj
    cases hfk : fieldKind fields c.name with
    | none =>
      have hnd' : (matchedNames fields pre).Nodup := by
        rwa [matchedNames_cons_unmatched fields c pre hfk] at hnd
      have hdisj' : ∀ n ∈ matchedNames fields pre, acc.lookup n = none := by
        rw [matchedNames_cons_unmatched fields c pre hfk] at hdisj
        exact hdisj
      obtain ⟨acc', heq, hchar⟩ :=
        ih rest acc (fun c' hc' => hok c' (List.mem_cons_of_mem _ hc')) hnd' hdisj'
      refine ⟨acc', ?_, ?_⟩
      · simpa [processCols, hfk, valueStep_ignoredAny] using heq
      · intro n
        rw [hchar n]
        by_cases hname : c.name = n
        · subst hname
          cases hf : pre.find? (fun c' => c'.name == c.name) with
          | none => simp [List.find?_cons, hf, colResult_none fields c hfk]
          | some c2 =>
            have h2 := List.find?_some hf
            simp only [beq_iff_eq] at h2
            have h2' : fieldKind fields c2.name = none := by
              rw [h2, hfk]
            simp [List.find?_cons, hf, colResult_none fields c hfk,
              colResult_none fields c2 h2']
        · have hb : (c.name == n) = false := by simpa using hname
          simp [List.find?_cons, hb]
    | some k =>
      obtain ⟨v, hv⟩ := hok c (List.mem_cons_self c pre) k hfk
      have hmem : c.name ∈ matchedNames fields (c :: pre) :=
        mem_matchedNames fields (c :: pre) c (List.mem_cons_self c pre) (by simp [hfk])
      have hacc : acc.lookup c.name = none := hdisj c.name hmem
      rw [matchedNames_cons_matched fields c pre (by simp [hfk])] at hnd hdisj
      have hnmem : c.name ∉ matchedNames fields pre := (List.nodup_cons.mp hnd).1
      have hnd' : (matchedNames fields pre).Nodup := (List.nodup_cons.mp hnd).2
      have hdisj' : ∀ n ∈ matchedNames fields pre, ((c.name, v) :: acc).lookup n = none := by
        intro n hn
        have hne : n ≠ c.name := fun h => hnmem (h ▸ hn)
        have hb : (n == c.name) = false := by simpa using hne
        rw [lookup_cons, hb]
        simpa using hdisj n (List.mem_cons_of_mem _ hn)
      obtain ⟨acc', heq, hchar⟩ :=
        ih rest ((c.name, v) :: acc) (fun c' hc' => hok c' (List.mem_cons_of_mem _ hc'))
          hnd' hdisj'
      refine ⟨acc', ?_, ?_⟩
      · simpa [processCols, hfk, hacc, hv] using heq
      · intro n
        rw [hchar n, lookup_cons]
        by_cases hname : c.name = n
        · subst hname
          have hfind : pre.find? (fun c' => c'.name == c.name) = none := by
            cases hf : pre.find? (fun c' => c'.name == c.name) with
            | none => rfl
            | some c2 =>
              have h2 := List.find?_some hf
              simp only [beq_iff_eq] at h2
              have h2m : c2.name ∈ matchedNames fields pre :=
                mem_matchedNames fields pre c2 (List.mem_of_find?_eq_some hf)
                  (by rw [h2]; simp [hfk])
              rw [h2] at h2m
              exact absurd h2m hnmem
          simp [List.find?_cons, hfind, colResult, hfk, hv, Except.toOption, hacc]
        · have hb : (c.name == n) = false := by simpa using hname
          have hb' : (n == c.name) = false := by
            simpa using fun h => hname h.symm
          simp [List.find?_cons, hb, hb']

theorem processCols_ok_extract (fields : List Field) :
    ∀ (cols : List Column) (acc r : RecordVal),
      processCols fields cols acc = .ok r →
      ((∀ c ∈ cols, ∀ k, fieldKind fields c.name = some k → ∃ v, valueStep c k = .ok v) ∧
       (matchedNames fields cols).Nodup ∧
       (∀ n ∈ matchedNames fields cols, acc.lookup n = none)) := by
  intro cols
  induction cols with
  | nil =>
    intro acc r _
    refine ⟨by simp, by simp [matchedNames], by simp [matchedNames]⟩
  | cons c cols ih =>
    intro acc r hok
    cases hfk : fieldKind fields c.name with
    | none =>
      simp only [processCols, hfk, valueStep_ignoredAny] at hok
      obtain ⟨h1, h2, h3⟩ := ih acc r hok
      refine ⟨?_, ?_, ?_⟩
      · intro c' hc' k' hk'
        rcases List.mem_cons.mp hc' with rfl | hc'
        · rw [hfk] at hk'
          exact absurd hk' (by simp)
        · exact h1 c' hc' k' hk'
      · rwa [matchedNames_cons_unmatched fields c cols hfk]
      · rw [matchedNames_cons_unmatched fields c cols hfk]
        exact h3
    | some k =>
      simp only [processCols, hfk] at hok
      by_cases hdup : (acc.lookup c.name).isSome = true
      · rw [if_pos hdup] at hok
        exact absurd hok (by simp)
      · rw [if_neg hdup] at hok
        have hacc : acc.lookup c.name = none := by
          cases h : acc.lookup c.name with
          | none => rfl
          | some v => rw [h] at hdup; simp at hdup
        cases hv : valueStep c k with
        | error e =>
          rw [hv] at hok
          exact absurd hok (by simp)
        | ok v =>
          rw [hv] at hok
          obtain ⟨h1, h2, h3⟩ := ih ((c.name, v) :: acc) r hok
          have hnmem : c.name ∉ matchedNames fields cols := by
            intro hmemn
            have := h3 c.name hmemn
            rw [lookup_cons] at this
            simp at this
          refine ⟨?_, ?_, ?_⟩
          · intro c' hc' k' hk'
            rcases List.mem_cons.mp hc' with rfl | hc'
            · rw [hfk] at hk'
              injection hk' with hkk
              exact ⟨v, hkk ▸ hv⟩
            · exact h1 c' hc' k' hk'
          · rw [matchedNames_cons_matched fields c cols (by simp [hfk])]
            exact List.nodup_cons.mpr ⟨hnmem, h2⟩
          · rw [matchedNames_cons_matched fields c cols (by simp [hfk])]
            intro n hn
            rcases List.mem_cons.mp hn with rfl | hn
            · exact hacc
            · have := h3 n hn
              rw [lookup_cons] at this
              have hne : n ≠ c.name := fun h => hnmem (h ▸ hn)
              rwa [if_neg (by simpa using hne)] at this

theorem matchedNames_all (fields : List Field) (cols : List Column)
    (h : ∀ c ∈ cols, (fieldKind fields c.name).isSome) :
    matchedNames fields cols = cols.map Column.name := by
  unfold matchedNames
  rw [List.filter_eq_self.mpr h]

theorem find?_name_eq_of_perm (row row' : Row) (hperm : row.Perm row')
    (hnd : (row.map Column.name).Nodup) (n : String) :
    row.find? (fun c => c.name == n) = row'.find? (fun c => c.name == n) := by
  cases hf : row.find? (fun c => c.name == n) with
  | none =>
    cases hf' : row'.find? (fun c => c.name == n) with
    | none => rfl
    | some c =>
      have hc : c ∈ row := hperm.mem_iff.mpr (List.mem_of_find?_eq_some hf')
      exact absurd (List.find?_some hf') (by simpa using List.find?_eq_none.mp hf c hc)
  | some c =>
    have hc : c ∈ row := List.mem_of_find?_eq_some hf
    have hcp : c.name = n := by
      have h2 := List.find?_some hf
      simpa only [beq_iff_eq] using h2
    have hc' : c ∈ row' := hperm.mem_iff.mp hc
    cases hf' : row'.find? (fun c => c.name == n) with
    | none =>
      have := List.find?_eq_none.mp hf' c hc'
      simp [hcp] at this
    | some c2 =>
      have hc2 : c2 ∈ row := hperm.mem_iff.mpr (List.mem_of_find?_eq_some hf')
      have hp2 : c2.name = n := by
        have h2 := List.find?_some hf'
        simpa only [beq_iff_eq] using h2
      have hcc : c2 = c :=
        List.inj_on_of_nodup_map hnd hc2 hc (by rw [hp2, hcp])
      rw [hcc]

theorem finishStruct_congr (fields : List Field) (a b : RecordVal)
    (h : ∀ n, a.lookup n = b.lookup n) : finishStruct fields a = finishStruct fields b := by
  have h1 : (fun f : Field => (List.lookup f.name a).isNone)
      = (fun f : Field => (List.lookup f.name b).isNone) := by
    funext f
    rw [h]
  have h2 : (fun f : Field => (f.name, (List.lookup f.name a).getD DeValue.unitVal))
      = (fun f : Field => (f.name, (List.lookup f.name b).getD DeValue.unitVal)) := by
    funext f
    rw [h]
  simp only [finishStruct, h1, h2]

/-! Shared lemmas about the dispatch and the MapAccess driver, used by
several claim proofs. -/

theorem deserialize_unsupported (k : DeKind) (hk : k ∈ unsupportedKinds) (d : Deserializer) :
    deserialize d k = (.error .UnsupportedType, d) := by
  fin_cases hk <;> rfl

theorem next_value_invalid (d : Deserializer) (k : DeKind) (err : String) (c : Column)
    (h1 : (deserialize d k).1 = .error (.InvalidType err))
    (hc : d.input[d.index]? = some c) :
    next_value d k
      = some (.error (.InvalidType (c.name ++ " " ++ err)),
          { d with index := d.index + 1 }) := by
  simp only [next_value, deserialize_snd, h1, Nat.add_sub_cancel, hc]

theorem next_value_passthrough (d : Deserializer) (k : DeKind)
    (h : ∀ err : String, (deserialize d k).1 ≠ .error (.InvalidType err)) :
    next_value d k = some ((deserialize d k).1, { d with index := d.index + 1 }) := by
  cases hv : (deserialize d k).1 with
  | ok v => simp [next_value, deserialize_snd, hv]
  | error e =>
    cases e with
    | InvalidType err => exact absurd hv (h err)
    | UnsupportedType => simp [next_value, deserialize_snd, hv]
    | UnknownField => simp [next_value, deserialize_snd, hv]
    | Message m => simp [next_value, deserialize_snd, hv]

theorem next_key_some_lt (d : Deserializer) (key : String)
    (h : next_key d = .ok (some key)) : d.index < d.input.length := by
  by_contra hge
  rw [Nat.not_lt] at hge
  simp [next_key, hge] at h

theorem next_key_of_lt (d : Deserializer) (h : d.index < d.input.length) :
    next_key d = .ok (some (d.input.get ⟨d.index, h⟩).name) := by
  have hg : d.input[d.index]? = some (d.input.get ⟨d.index, h⟩) := by
    rw [List.getElem?_eq_getElem h]
    simp
  simp [next_key, Nat.not_le.mpr h, hg]

theorem next_value_advance (d : Deserializer) (k : DeKind) :
    next_value d k = none ∨
      ∃ r, next_value d k = some (r, { d with index := d.index + 1 }) := by
  cases hv : (deserialize d k).1 with
  | ok v => exact Or.inr ⟨.ok v, by simp [next_value, deserialize_snd, hv]⟩
  | error e =>
    cases e with
    | InvalidType err =>
      cases hl : d.input[d.index]? with
      | none =>
        exact Or.inl (by simp [next_value, deserialize_snd, hv, Nat.add_sub_cancel, hl])
      | some c =>
        exact Or.inr ⟨.error (.InvalidType (c.name ++ " " ++ err)),
          by simp [next_value, deserialize_snd, hv, Nat.add_sub_cancel, hl]⟩
    | UnsupportedType =>
      exact Or.inr ⟨.error .UnsupportedType, by simp [next_value, deserialize_snd, hv]⟩
    | UnknownField =>
      exact Or.inr ⟨.error .UnknownField, by simp [next_value, deserialize_snd, hv]⟩
    | Message m =>
      exact Or.inr ⟨.error (.Message m), by simp [next_value, deserialize_snd, hv]⟩

/-! The claim theorems. -/

/-- Claim C2: the claim (and the repository's own nullable unit test)
expects a NULL column deserialized into an optional wrapper field to
succeed with the absent value; the code instead lists deserialize_option
in the unsupported_type! macro, so the pass fails with UnsupportedType.
This theorem evaluates the code at the failing input. -/
theorem option_field_null_is_unsupported :
    from_row [{ name := "wants_candy", kind := .option }]
      [{ name := "wants_candy", value := none }]
      = some (.error .UnsupportedType) := by
  rfl

/-- Claim C3: for every kind in the unsupported list (deserialize_any,
u8, u16, u64, char, str, bytes, unit, identifier, option, enum,
unit-struct, newtype-struct, tuple, tuple-struct), the dispatch returns
UnsupportedType and leaves the deserializer exactly as it was: the
result is a constant independent of the row, so no column is consulted,
and the returned state equals the input state, so the index is not
modified within the dispatch call. -/
theorem unsupported_kind_dispatch (k : DeKind) (hk : k ∈ unsupportedKinds)
    (d : Deserializer) :
    deserialize d k = (.error .UnsupportedType, d) :=
  deserialize_unsupported k hk d

theorem unsupported_kind_dispatch_witness :
    deserialize { input := [{ name := "a", value := some (.vBool true) }], index := 0 } .tuple
      = (.error .UnsupportedType,
         { input := [{ name := "a", value := some (.vBool true) }], index := 0 }) :=
  unsupported_kind_dispatch .tuple (by decide)
    { input := [{ name := "a", value := some (.vBool true) }], index := 0 }

/-- Claim C4: the cursor starts at 0 (Deserializer::from_row), every
next_value call that returns advances the index by exactly one whatever
the value outcome was and never touches the row, a key step only hands
out a key while the index is below the column count, and therefore the
index stays at most the column count after the value step that follows a
successful key step: 0 <= index <= column_count throughout a map-driven
pass. -/
theorem cursor_index_invariant :
    (∀ input : Row, (Deserializer.from_row input).index = 0) ∧
    (∀ (d : Deserializer) (k : DeKind) (r : Except Error DeValue) (d1 : Deserializer),
      next_value d k = some (r, d1) → d1.index = d.index + 1 ∧ d1.input = d.input) ∧
    (∀ (d : Deserializer) (key : String),
      next_key d = .ok (some key) → d.index < d.input.length) ∧
    (∀ (d : Deserializer) (k : DeKind) (key : String) (r : Except Error DeValue)
      (d1 : Deserializer),
      next_key d = .ok (some key) → next_value d k = some (r, d1) →
      d1.index ≤ d1.input.length) := by
  have hadv : ∀ (d : Deserializer) (k : DeKind) (r : Except Error DeValue)
      (d1 : Deserializer),
      next_value d k = some (r, d1) → d1.index = d.index + 1 ∧ d1.input = d.input := by
    intro d k r d1 h
    rcases next_value_advance d k with hnone | ⟨r2, hr2⟩
    · rw [hnone] at h
      exact absurd h (by simp)
    · rw [hr2] at h
      have h2 := (Option.some.inj h)
      have h3 : d1 = { d with index := d.index + 1 } := (congrArg Prod.snd h2).symm
      rw [h3]
      exact ⟨rfl, rfl⟩
  refine ⟨fun _ => rfl, hadv, fun d key h => next_key_some_lt d key h, ?_⟩
  intro d k key r d1 hkey hval
  obtain ⟨h1, h2⟩ := hadv d k r d1 hval
  have h3 := next_key_some_lt d key hkey
  rw [h1, h2]
  omega

theorem cursor_index_invariant_witness :
    next_value { input := [{ name := "a", value := none }], index := 0 } .bool
      = some (.error (.InvalidType ("a" ++ " " ++ "Error(Conversion(WasNull))")),
          { input := [{ name := "a", value := none }], index := 1 }) ∧
    (1 : Nat) = 0 + 1 := by
  have h := cursor_index_invariant.2.1
    { input := [{ name := "a", value := none }], index := 0 } .bool
    (.error (.InvalidType ("a" ++ " " ++ "Error(Conversion(WasNull))")))
    { input := [{ name := "a", value := none }], index := 1 }
    (by rfl)
  exact ⟨by rfl, h.1⟩

/-- Claim C5: when the dispatch of the value step fails with InvalidType,
next_value returns InvalidType whose message is exactly the name of the
column just consumed (the one at index, i.e. at index - 1 after the
advancement), one space, and the underlying conversion message; any
other outcome, in particular the error kinds UnsupportedType,
UnknownField and Message, is passed through unchanged. -/
theorem next_value_error_enrichment (d : Deserializer) (k : DeKind) :
    (∀ (err : String) (c : Column),
      (deserialize d k).1 = .error (.InvalidType err) →
      d.input[d.index]? = some c →
      next_value d k
        = some (.error (.InvalidType (c.name ++ " " ++ err)),
            { d with index := d.index + 1 })) ∧
    (∀ r : Except Error DeValue,
      (deserialize d k).1 = r →
      (∀ err : String, r ≠ .error (.InvalidType err)) →
      next_value d k = some (r, { d with index := d.index + 1 })) := by
  constructor
  · intro err c h1 hc
    exact next_value_invalid d k err c h1 hc
  · intro r h1 h2
    rw [← h1]
    exact next_value_passthrough d k (fun err => h1 ▸ h2 err)

theorem next_value_error_enrichment_witness :
    next_value { input := [{ name := "width", value := none }], index := 0 } .i16
      = some (.error (.InvalidType ("width" ++ " " ++ "Error(Conversion(WasNull))")),
          { input := [{ name := "width", value := none }], index := 1 }) :=
  (next_value_error_enrichment { input := [{ name := "width", value := none }], index := 0 }
    .i16).1 "Error(Conversion(WasNull))" { name := "width", value := none } (by rfl) (by rfl)

/-- Claim C6: next_key reports end-of-map (Ok none, not an error) exactly
when the index has reached the column count; below the bound it yields
the name of the column at the index as the string key; and the
UnknownField branch is defensively unreachable: next_key never returns
it, because the lookup under the bound always finds a column. -/
theorem next_key_spec (d : Deserializer) :
    (d.input.length ≤ d.index → next_key d = .ok none) ∧
    (∀ h : d.index < d.input.length,
      next_key d = .ok (some (d.input.get ⟨d.index, h⟩).name)) ∧
    next_key d ≠ .error .UnknownField := by
  refine ⟨?_, ?_, ?_⟩
  · intro h
    simp [next_key, h]
  · intro h
    exact next_key_of_lt d h
  · intro hcon
    by_cases h : d.input.length ≤ d.index
    · simp [next_key, h] at hcon
    · have h' : d.index < d.input.length := Nat.not_le.mp h
      rw [next_key_of_lt d h'] at hcon
      exact absurd hcon (by simp)

theorem next_key_spec_witness :
    next_key { input := [{ name := "wants_candy", value := none }], index := 0 }
      = .ok (some "wants_candy") :=
  (next_key_spec { input := [{ name := "wants_candy", value := none }], index := 0 }).2.1
    (by decide)

/-- Claim C8: a field whose requested kind is unsupported fails with
UnsupportedType while reading nothing: the dispatch returns a constant
and the unchanged state, and the error passes through next_value without
enrichment while the driver advances the cursor past the field.  A
subsequent field therefore reads its own column - the one the
unsupported field never consumed - and an InvalidType failure there is
attributed to that column's name. -/
theorem unsupported_field_frame_effect (d : Deserializer) (k k2 : DeKind) (c2 : Column)
    (err : String)
    (hk : k ∈ unsupportedKinds)
    (hc2 : d.input[d.index + 1]? = some c2)
    (hfail : (deserialize { d with index := d.index + 1 } k2).1
      = .error (.InvalidType err)) :
    deserialize d k = (.error .UnsupportedType, d) ∧
    next_value d k = some (.error .UnsupportedType, { d with index := d.index + 1 }) ∧
    next_value { d with index := d.index + 1 } k2
      = some (.error (.InvalidType (c2.name ++ " " ++ err)),
          { d with index := d.index + 1 + 1 }) := by
  have h1 := deserialize_unsupported k hk d
  refine ⟨h1, ?_, ?_⟩
  · have := next_value_passthrough d k (fun err2 => by rw [h1]; simp)
    rw [h1] at this
    exact this
  · exact next_value_invalid { d with index := d.index + 1 } k2 err c2 hfail hc2

theorem unsupported_field_frame_effect_witness :
    next_value { input := [{ name := "a", value := some (.vI32 1) },
        { name := "b", value := none }], index := 0 } .tuple
      = some (.error .UnsupportedType,
          { input := [{ name := "a", value := some (.vI32 1) },
              { name := "b", value := none }], index := 1 }) ∧
    next_value { input := [{ name := "a", value := some (.vI32 1) },
        { name := "b", value := none }], index := 1 } .bool
      = some (.error (.InvalidType ("b" ++ " " ++ "Error(Conversion(WasNull))")),
          { input := [{ name := "a", value := some (.vI32 1) },
              { name := "b", value := none }], index := 2 }) := by
  have h := unsupported_field_frame_effect
    { input := [{ name := "a", value := some (.vI32 1) },
        { name := "b", value := none }], index := 0 }
    .tuple .bool { name := "b", value := none } "Error(Conversion(WasNull))"
    (by decide) (by rfl) (by rfl)
  exact ⟨h.2.1, h.2.2⟩

/-- Claim C10: under the map protocol, a value step is attempted only
after a key step handed out a key, which requires index < column_count;
then the enrichment lookup at index - 1 (after the advancement) always
finds a column, the unwrap cannot panic (next_value returns a value, not
the none that models the panic), and 1 <= index <= column_count holds
after the advancement. -/
theorem next_value_unwrap_safe (d : Deserializer) (k : DeKind) (key : String)
    (h : next_key d = .ok (some key)) :
    ∃ (r : Except Error DeValue) (d1 : Deserializer),
      next_value d k = some (r, d1) ∧ d1.index = d.index + 1 ∧
      1 ≤ d1.index ∧ d1.index ≤ d1.input.length := by
  have hlt : d.index < d.input.length := next_key_some_lt d key h
  have hc : d.input[d.index]? = some (d.input.get ⟨d.index, hlt⟩) := by
    rw [List.getElem?_eq_getElem hlt]
    simp
  refine ⟨valueStep (d.input.get ⟨d.index, hlt⟩) k, { d with index := d.index + 1 },
    next_value_eq d k _ hc, rfl, ?_, ?_⟩
  · simp
  · simpa using hlt

theorem next_value_unwrap_safe_witness :
    ∃ (r : Except Error DeValue) (d1 : Deserializer),
      next_value { input := [{ name := "a", value := none }], index := 0 } .bool
        = some (r, d1) ∧ d1.index = 0 + 1 ∧ 1 ≤ d1.index ∧ d1.index ≤ d1.input.length :=
  next_value_unwrap_safe { input := [{ name := "a", value := none }], index := 0 }
    .bool "a" (by rfl)

theorem matchedNames_append (fields : List Field) (l1 l2 : List Column) :
    matchedNames fields (l1 ++ l2) = matchedNames fields l1 ++ matchedNames fields l2 := by
  simp [matchedNames, List.filter_append]

theorem valueStep_null_prim (c : Column) (k : DeKind) (hprim : k ∈ primKinds)
    (hnull : c.value = none) :
    valueStep c k
      = .error (.InvalidType (c.name ++ " " ++ "Error(Conversion(WasNull))")) := by
  fin_cases hprim <;>
    simp [valueStep, dispatchVal, deserialize, get_value, Row.tryGet, Column.tryGetAs, hnull]

/-- Claim C1: when the pass reaches a NULL column whose name matches a
field of a non-optional primitive kind (bool, i8, i16, i32, i64, u32,
f32, f64, String, byte buffer), from_row fails with InvalidType whose
message is exactly the column's name, a space, and the WasNull
conversion message - so it contains the column name and indicates the
NULL failure - and no record is returned.  The pass reaches the column
when every earlier matched column's value step succeeded and the matched
names so far are distinct. -/
theorem null_into_primitive_fails (fields : List Field) (pre post : List Column)
    (c : Column) (k : DeKind)
    (hnull : c.value = none)
    (hk : fieldKind fields c.name = some k)
    (hprim : k ∈ primKinds)
    (hpre : ∀ c' ∈ pre, ∀ k', fieldKind fields c'.name = some k' →
      ∃ v, valueStep c' k' = .ok v)
    (hnd : (matchedNames fields (pre ++ [c])).Nodup) :
    from_row fields (pre ++ c :: post)
      = some (.error (.InvalidType (c.name ++ " " ++ "Error(Conversion(WasNull))"))) := by
  rw [from_row_eq]
  rw [matchedNames_append] at hnd
  have hcm : matchedNames fields [c] = [c.name] := by
    simp [matchedNames, hk]
  rw [hcm] at hnd
  have hnodup_pre : (matchedNames fields pre).Nodup := (List.nodup_append.mp hnd).1
  have hdisj2 := (List.nodup_append.mp hnd).2.2
  have hnotin : c.name ∉ matchedNames fields pre := by
    intro hmem
    exact hdisj2 hmem (by simp)
  obtain ⟨acc', heq, hchar⟩ :=
    processCols_append fields pre (c :: post) [] hpre hnodup_pre (by simp)
  rw [heq]
  have hlook : acc'.lookup c.name = none := by
    rw [hchar c.name]
    cases hf : pre.find? (fun c' => c'.name == c.name) with
    | none => simp
    | some c2 =>
      have h2 := List.find?_some hf
      simp only [beq_iff_eq] at h2
      have hm : c2.name ∈ matchedNames fields pre :=
        mem_matchedNames fields pre c2 (List.mem_of_find?_eq_some hf)
          (by rw [h2]; simp [hk])
      rw [h2] at hm
      exact absurd hm hnotin
  simp [processCols, hk, hlook, valueStep_null_prim c k hprim hnull]

theorem null_into_primitive_fails_witness :
    from_row [{ name := "wants_candy", kind := .bool }]
      [{ name := "wants_candy", value := none }]
      = some (.error (.InvalidType
          ("wants_candy" ++ " " ++ "Error(Conversion(WasNull))"))) :=
  null_into_primitive_fails [{ name := "wants_candy", kind := .bool }] [] []
    { name := "wants_candy", value := none } .bool rfl (by rfl) (by decide)
    (fun c' hc' => absurd hc' (List.not_mem_nil c')) (by decide)

theorem from_rows_all_ok (fields : List Field) :
    ∀ rows : List Row,
      (∀ row ∈ rows, ∃ v, from_row fields row = some (.ok v)) →
      ∃ recs : List RecordVal,
        from_rows fields rows = some (.ok recs) ∧
        recs.length = rows.length ∧
        ∀ (i : Nat) (h1 : i < rows.length) (h2 : i < recs.length),
          from_row fields (rows.get ⟨i, h1⟩) = some (.ok (recs.get ⟨i, h2⟩)) := by
  intro rows
  induction rows with
  | nil =>
    intro _
    exact ⟨[], rfl, rfl, fun i h1 h2 => absurd h1 (by simp)⟩
  | cons row rows ih =>
    intro hall
    obtain ⟨v, hv⟩ := hall row (List.mem_cons_self row rows)
    obtain ⟨recs, hrecs, hlen, hget⟩ := ih (fun r hr => hall r (List.mem_cons_of_mem _ hr))
    refine ⟨v :: recs, ?_, by simp [hlen], ?_⟩
    · simp [from_rows, hv, hrecs]
    · intro i h1 h2
      cases i with
      | zero => simpa using hv
      | succ i =>
        have h1' : i < rows.length := by simpa using h1
        have h2' : i < recs.length := by simpa using h2
        simpa using hget i h1' h2'

theorem from_rows_first_error (fields : List Field) (post : List Row) (bad : Row)
    (e : Error) (hbad : from_row fields bad = some (.error e)) :
    ∀ pre : List Row, (∀ row ∈ pre, ∃ v, from_row fields row = some (.ok v)) →
      from_rows fields (pre ++ bad :: post) = some (.error e) := by
  intro pre
  induction pre with
  | nil =>
    intro _
    simp [from_rows, hbad]
  | cons r pre ih =>
    intro hpre
    obtain ⟨v, hv⟩ := hpre r (List.mem_cons_self r pre)
    have h2 := ih (fun r2 hr2 => hpre r2 (List.mem_cons_of_mem _ hr2))
    simp [from_rows, hv, h2]

/-- Claim C7: from_rows over an ordered row sequence is order-preserving
when every row succeeds - position i of the output vector holds the
record of row i - and when some row fails, the error of the first
failing row is returned and no partial vector with the earlier rows'
decoded values is ever produced. -/
theorem from_rows_batch (fields : List Field) :
    (∀ rows : List Row,
      (∀ row ∈ rows, ∃ v, from_row fields row = some (.ok v)) →
      ∃ recs : List RecordVal,
        from_rows fields rows = some (.ok recs) ∧
        recs.length = rows.length ∧
        ∀ (i : Nat) (h1 : i < rows.length) (h2 : i < recs.length),
          from_row fields (rows.get ⟨i, h1⟩) = some (.ok (recs.get ⟨i, h2⟩))) ∧
    (∀ (pre post : List Row) (bad : Row) (e : Error),
      (∀ row ∈ pre, ∃ v, from_row fields row = some (.ok v)) →
      from_row fields bad = some (.error e) →
      from_rows fields (pre ++ bad :: post) = some (.error e)) :=
  ⟨from_rows_all_ok fields,
   fun pre post bad e hpre hbad => from_rows_first_error fields post bad e hbad pre hpre⟩

theorem from_rows_batch_witness :
    from_rows [{ name := "a", kind := DeKind.bool }]
      [[{ name := "a", value := some (.vBool true) }], [{ name := "a", value := none }]]
      = some (.error (.InvalidType ("a" ++ " " ++ "Error(Conversion(WasNull))"))) := by
  have h := (from_rows_batch [{ name := "a", kind := DeKind.bool }]).2
    [[{ name := "a", value := some (.vBool true) }]] []
    [{ name := "a", value := none }]
    (.InvalidType ("a" ++ " " ++ "Error(Conversion(WasNull))"))
    (fun row hr => by
      rw [List.mem_singleton.mp hr]
      exact ⟨[("a", DeValue.prim (SqlValue.vBool true))], rfl⟩)
    (by rfl)
  simpa using h

/-- Claim C9: over a row whose columns all name-match declared fields and
which deserializes successfully, any permutation of the columns (name and
value kept together) deserializes to the same record value: the record is
determined by the name-to-column assignment, which distinct names make
permutation invariant. -/
theorem column_order_irrelevant (fields : List Field) (row row2 : Row) (r : RecordVal)
    (hperm : row.Perm row2)
    (hmatch : ∀ c ∈ row, (fieldKind fields c.name).isSome)
    (hok : from_row fields row = some (.ok r)) :
    from_row fields row2 = some (.ok r) := by
  rw [from_row_eq] at hok
  have hok' : processCols fields row [] = .ok r := Option.some.inj hok
  obtain ⟨h1, h2, _⟩ := processCols_ok_extract fields row [] r hok'
  have hnames : (row.map Column.name).Nodup := by
    rw [← matchedNames_all fields row hmatch]
    exact h2
  have hmatch2 : ∀ c ∈ row2, (fieldKind fields c.name).isSome :=
    fun c hc => hmatch c (hperm.mem_iff.mpr hc)
  have h1b : ∀ c ∈ row2, ∀ k, fieldKind fields c.name = some k →
      ∃ v, valueStep c k = .ok v :=
    fun c hc => h1 c (hperm.mem_iff.mpr hc)
  have hnames2 : (row2.map Column.name).Nodup :=
    ((hperm.map Column.name).nodup_iff).mp hnames
  have h2b : (matchedNames fields row2).Nodup := by
    rw [matchedNames_all fields row2 hmatch2]
    exact hnames2
  obtain ⟨a1, e1, char1⟩ := processCols_append fields row [] [] h1 h2 (by simp)
  obtain ⟨a2, e2, char2⟩ := processCols_append fields row2 [] [] h1b h2b (by simp)
  rw [List.append_nil] at e1 e2
  have hfin1 : finishStruct fields a1 = .ok r := by
    have hdef : processCols fields [] a1 = finishStruct fields a1 := rfl
    rw [← hdef, ← e1]
    exact hok'
  have hlook : ∀ n, a2.lookup n = a1.lookup n := by
    intro n
    rw [char2 n, char1 n, find?_name_eq_of_perm row row2 hperm hnames n]
  have hfin2 : finishStruct fields a2 = .ok r := by
    rw [finishStruct_congr fields a2 a1 hlook]
    exact hfin1
  rw [from_row_eq, e2]
  exact congrArg some hfin2

theorem column_order_irrelevant_witness :
    from_row [{ name := "a", kind := DeKind.bool }, { name := "b", kind := DeKind.i16 }]
      [{ name := "b", value := some (.vI16 20) }, { name := "a", value := some (.vBool true) }]
      = some (.ok [("a", DeValue.prim (SqlValue.vBool true)),
          ("b", DeValue.prim (SqlValue.vI16 20))]) :=
  column_order_irrelevant
    [{ name := "a", kind := DeKind.bool }, { name := "b", kind := DeKind.i16 }]
    [{ name := "a", value := some (.vBool true) }, { name := "b", value := some (.vI16 20) }]
    [{ name := "b", value := some (.vI16 20) }, { name := "a", value := some (.vBool true) }]
    [("a", DeValue.prim (SqlValue.vBool true)), ("b", DeValue.prim (SqlValue.vI16 20))]
    (by decide) (by decide) (by rfl)

end SerdePostgres
